import Mathlib

/-!
# buildkit-toy: the directive interpreter of `main.go`

A shallow embedding of the part of `main.go` that turns a decoded command
file (`noobfile`) into an `llb.State` chain, and of the status consumer loop.

Modelling conventions

* Go strings are Lean `String`s.  The separators used by the program are the
  one-byte strings `" "` and `"="`, so `strings.Split` / `strings.SplitN` are
  embedded for a one-character separator.
* `llb.State` is an external value type.  It is embedded as the free term
  algebra of the constructors the program calls (`llb.Image`, `llb.Local`,
  `State.AddEnv`, `State.File (llb.Copy ..)`, `State.Run (llb.Shlex ..) .Root`).
* The two ways the program can stop early are kept apart: `log.Fatalf`
  (format string and arguments) and the runtime abort of an out-of-range slice
  index.
* `mainBuild` returns, next to its result, the list of `llb.State` values that
  were constructed, in construction order.
-/

namespace BuildkitToy

/-! ## `strings.SplitN` and `strings.Split` -/

namespace strings

/-- Position of the first `sep` in `s`, as the text before it and the text
after it (`strings.Index` followed by the two slicings `s[:m]`, `s[m+1:]`). -/
def cutFirst (sep : Char) : List Char → Option (List Char × List Char)
  | [] => none
  | c :: cs =>
    if c = sep then some ([], cs)
    else
      match cutFirst sep cs with
      | none => none
      | some (a, b) => some (c :: a, b)

/-- The loop of `genSplit` on characters: at most `n` pieces, the last piece
is the unsplit rest. `n = 0` gives the empty slice. -/
def splitChars (sep : Char) : Nat → List Char → List (List Char)
  | 0, _ => []
  | 1, s => [s]
  | n + 2, s =>
    match cutFirst sep s with
    | none => [s]
    | some (a, b) => a :: splitChars sep (n + 1) b

/-- Embedding of `strings.Count(s, sep)` for a one-character separator. -/
def Count (s : String) (sep : Char) : Nat :=
  s.data.count sep

/-- Embedding of `strings.SplitN(s, sep, n)` for `n ≥ 0` and a one-character separator. -/
def SplitN (s : String) (sep : Char) (n : Nat) : List String :=
  (splitChars sep n s.data).map String.mk

/-- Embedding of `strings.Split(s, sep)`: `genSplit` with `n = Count(s, sep) + 1`. -/
def Split (s : String) (sep : Char) : List String :=
  SplitN s sep (Count s sep + 1)

end strings

/-! ## Aborts -/

/-- The ways a run stops early. -/
inductive Abort where
  /-- Call of `log.Fatalf(format, args...)`. -/
  | fatalf (format : String) (args : List String)
  /-- Runtime abort `index out of range [i] with length len`. -/
  | indexOutOfRange (i len : Nat)
  deriving DecidableEq, Repr

/-- Slice indexing `xs[i]`: aborts when `i` is not below `len(xs)`. -/
def index (xs : List String) (i : Nat) : Except Abort String :=
  match xs.get? i with
  | some x => .ok x
  | none => .error (.indexOutOfRange i xs.length)

/-! ## `llb.State` -/

/-- Values of `llb.State` reachable by the program, as constructor terms. -/
inductive State where
  /-- Term `llb.Image(ref)`. -/
  | Image (ref : String)
  /-- Term `llb.Local(name)`. -/
  | Local (name : String)
  /-- Term `s.AddEnv(key, value)`. -/
  | AddEnv (s : State) (key value : String)
  /-- Term `s.File(llb.Copy(src, srcPath, destPath, &llb.CopyInfo{}))`. -/
  | FileCopy (s : State) (src : State) (srcPath destPath : String)
  /-- Term `s.Run(llb.Shlex(op)).Root()`. -/
  | RunShlexRoot (s : State) (op : String)
  deriving DecidableEq, Repr

instance : DecidableEq (Except Abort State) := fun a b =>
  match a, b with
  | .ok x, .ok y =>
    if h : x = y then isTrue (by rw [h]) else isFalse (fun e => h (by cases e; rfl))
  | .error x, .error y =>
    if h : x = y then isTrue (by rw [h]) else isFalse (fun e => h (by cases e; rfl))
  | .ok _, .error _ => isFalse (fun e => by cases e)
  | .error _, .ok _ => isFalse (fun e => by cases e)

/-- The state a derived state was built from; `none` for the two source states. -/
def State.parent : State → Option State
  | .Image _ => none
  | .Local _ => none
  | .AddEnv s _ _ => some s
  | .FileCopy s _ _ _ => some s
  | .RunShlexRoot s _ => some s

/-- Number of derivation steps between a state and the source state it starts from. -/
def State.depth : State → Nat
  | .Image _ => 0
  | .Local _ => 0
  | .AddEnv s _ _ => s.depth + 1
  | .FileCopy s _ _ _ => s.depth + 1
  | .RunShlexRoot s _ => s.depth + 1

/-! ## The handlers -/

/-- Embedding of `handleEnv`. -/
def handleEnv (state : State) (val : String) : Except Abort State := do
  let parts := strings.Split val '='
  let key ← index parts 0
  let value ← index parts 1
  return state.AddEnv key value

/-- Embedding of `handleCp`. -/
def handleCp (localSt : State) (state : State) (val : String) : Except Abort State := do
  let parts := strings.Split val ' '
  let src ← index parts 0
  let dest ← index parts 1
  return state.FileCopy localSt src dest

/-- Embedding of `handleExecute`. -/
def handleExecute (state : State) (op : String) : Except Abort State :=
  .ok (state.RunShlexRoot op)

/-! ## The loop of `main` -/

/-- Decoded command file. -/
structure noobfile where
  With : String
  Commands : List String
  deriving DecidableEq, Repr

/-- One iteration of the `for _, command := range nf.Commands` loop body. -/
def loopBody (localSt : State) (state : State) (command : String) : Except Abort State := do
  let parts := strings.SplitN command ' ' 2
  let kw ← index parts 0
  if kw = "env" then
    let arg ← index parts 1
    handleEnv state arg
  else if kw = "cp" then
    let arg ← index parts 1
    handleCp localSt state arg
  else if kw = "execute" then
    let arg ← index parts 1
    handleExecute state arg
  else
    .error (.fatalf "%q is not a valid command" [kw])

/-- Result of the graph-building part of `main`: the `llb.State` values
constructed so far, oldest first, and either the final state handed to
`state.Marshal` or the abort. -/
structure Outcome where
  built : List State
  result : Except Abort State
  deriving DecidableEq

/-- The `for` loop of `main` over the remaining commands. -/
def runLoop (localSt : State) : List String → State → List State → Outcome
  | [], state, built => ⟨built, .ok state⟩
  | command :: rest, state, built =>
    match loopBody localSt state command with
    | .error e => ⟨built, .error e⟩
    | .ok next => runLoop localSt rest next (built ++ [next])

/-- Lines 39 to 62 of `main`: the two checks, the two source states, the loop. -/
def mainBuild (nf : noobfile) : Outcome :=
  if nf.With = "" then
    ⟨[], .error (.fatalf "no image specified" [])⟩
  else
    let state := State.Image nf.With
    let localSt := State.Local "local-pwd"
    if nf.Commands.length = 0 then
      ⟨[state, localSt], .error (.fatalf "file does not contain a list of commands" [])⟩
    else
      runLoop localSt nf.Commands state [state, localSt]

/-! ## The status consumer -/

/-- Field `Data` of a `client.VertexLog`, read through `string(l.Data)`. -/
structure VertexLog where
  Data : String
  deriving DecidableEq, Repr

/-- Field `Name` of a `client.Vertex`. -/
structure Vertex where
  Name : String
  deriving DecidableEq, Repr

/-- The two fields of `client.SolveStatus` the consumer reads. -/
structure SolveStatus where
  Logs : List VertexLog
  Vertexes : List Vertex
  deriving DecidableEq, Repr

/-- The two inner loops of the consumer for one status: the texts printed, in
print order.  `blue` and `green` are the colour functions of `fatih/color`. -/
def renderStatus (blue green : String → String) (status : SolveStatus) : List String :=
  status.Logs.map (fun l => blue "Output:" ++ "\n" ++ l.Data ++ "\n")
    ++ status.Vertexes.map (fun v => green "Doing:" ++ " " ++ v.Name ++ "\n")

/-- The consumer goroutine on the sequence of values received from
`statusChan` before it is closed; `none` is a nil `*client.SolveStatus`. -/
def consume (blue green : String → String) : List (Option SolveStatus) → List String
  | [] => []
  | none :: _ => []
  | some status :: rest => renderStatus blue green status ++ consume blue green rest


/-! ## Vocabulary used to state the properties -/

/-- Text of `s` before its first `sep` (all of `s` when it has none). -/
def beforeFirst (sep : Char) (s : String) : String :=
  ⟨s.data.takeWhile (fun c => c != sep)⟩

/-- Text of `s` after its first `sep` (empty when it has none). -/
def afterFirst (sep : Char) (s : String) : String :=
  ⟨(s.data.dropWhile (fun c => c != sep)).tail⟩

/-- Keyword of a command: its text before the first space. -/
def keywordOf (command : String) : String :=
  beforeFirst ' ' command

/-- Remainder of a command: its text after the first space. -/
def remainderOf (command : String) : String :=
  afterFirst ' ' command

/-- The commands the loop body of `main` accepts, read off the code: a space
ends the keyword, the keyword is one of the three the `switch` knows, and the
remainder holds the separator its handler indexes past (`=` for `env`, a space
for `cp`). This is the code's condition, not the spec's well-formedness. -/
def LoopAccepts (command : String) : Prop :=
  ' ' ∈ command.data ∧
    ((keywordOf command = "env" ∧ '=' ∈ (remainderOf command).data) ∨
     (keywordOf command = "cp" ∧ ' ' ∈ (remainderOf command).data) ∨
     keywordOf command = "execute")

instance : DecidablePred LoopAccepts := fun c => by
  unfold LoopAccepts; infer_instance

/-- The state one accepted command adds on top of `state`, written with the
constructors of `llb.State`: for `env` the binding of the text before the first
`=` to the text between the first and the second `=`, for `cp` the copy from
the first to the second space-separated piece, otherwise the run of the
remainder. -/
def appliedStep (localSt state : State) (command : String) : State :=
  if keywordOf command = "env" then
    state.AddEnv (beforeFirst '=' (remainderOf command))
      (beforeFirst '=' (afterFirst '=' (remainderOf command)))
  else if keywordOf command = "cp" then
    state.FileCopy localSt (beforeFirst ' ' (remainderOf command))
      (beforeFirst ' ' (afterFirst ' ' (remainderOf command)))
  else
    state.RunShlexRoot (remainderOf command)

/-- The `switch` of the loop body on a keyword `kw` with handler argument `arg`. -/
def dispatch (localSt state : State) (kw arg : String) : Except Abort State :=
  if kw = "env" then handleEnv state arg
  else if kw = "cp" then handleCp localSt state arg
  else if kw = "execute" then handleExecute state arg
  else .error (.fatalf "%q is not a valid command" [kw])

/-- Reading of the wording "splits on whitespace into tokens": the maximal
runs of non-whitespace characters of `s`, in order. -/
def whitespaceRuns : List Char → List (List Char)
  | [] => []
  | c :: cs =>
    if c.isWhitespace then whitespaceRuns cs
    else
      match cs with
      | [] => [[c]]
      | d :: _ =>
        if d.isWhitespace then [c] :: whitespaceRuns cs
        else
          match whitespaceRuns cs with
          | [] => [[c]]
          | t :: ts => (c :: t) :: ts

/-- Tokens of a string when it is split on whitespace. -/
def whitespaceTokens (s : String) : List String :=
  (whitespaceRuns s.data).map String.mk

/-- Keyword of a line in the spec's wording: its text before the first run of
whitespace. -/
def specKeyword (line : String) : String :=
  ⟨line.data.takeWhile (fun c => !c.isWhitespace)⟩

/-- Remainder of a line in the spec's wording: its text after the whole first
run of whitespace. -/
def specRemainder (line : String) : String :=
  ⟨(line.data.dropWhile (fun c => !c.isWhitespace)).dropWhile Char.isWhitespace⟩

/-- Well-formed directive in the spec's wording: the keyword is `env` and the
remainder holds at least one `=`, or the keyword is `cp` and the remainder
splits on whitespace into exactly two tokens, or the keyword is `execute`, with
any remainder. -/
def SpecWellFormed (line : String) : Prop :=
  (specKeyword line = "env" ∧ '=' ∈ (specRemainder line).data) ∨
    (specKeyword line = "cp" ∧ (whitespaceTokens (specRemainder line)).length = 2) ∨
    specKeyword line = "execute"

instance : DecidablePred SpecWellFormed := fun c => by
  unfold SpecWellFormed; infer_instance

/-! ## Lemmas on splitting -/

namespace strings

theorem cutFirst_of_not_mem (sep : Char) :
    ∀ s : List Char, sep ∉ s → cutFirst sep s = none
  | [], _ => rfl
  | c :: cs, h => by
    have hc : ¬ c = sep := fun e => h (by simp [e])
    have hcs : sep ∉ cs := fun m => h (List.mem_cons_of_mem _ m)
    simp [cutFirst, hc, cutFirst_of_not_mem sep cs hcs]

theorem cutFirst_of_mem (sep : Char) :
    ∀ s : List Char, sep ∈ s →
      cutFirst sep s =
        some (s.takeWhile (fun c => c != sep), (s.dropWhile (fun c => c != sep)).tail)
  | [], h => by simp at h
  | c :: cs, h => by
    by_cases hc : c = sep
    · simp [cutFirst, hc]
    · have hcs : sep ∈ cs := by
        rcases List.mem_cons.mp h with e | m
        · exact absurd e.symm hc
        · exact m
      simp [cutFirst, hc, cutFirst_of_mem sep cs hcs, List.takeWhile_cons, List.dropWhile_cons]

theorem splitChars_two_of_not_mem (sep : Char) (s : List Char) (h : sep ∉ s) :
    splitChars sep 2 s = [s] := by
  simp [splitChars, cutFirst_of_not_mem sep s h]

theorem splitChars_two_of_mem (sep : Char) (s : List Char) (h : sep ∈ s) :
    splitChars sep 2 s =
      [s.takeWhile (fun c => c != sep), (s.dropWhile (fun c => c != sep)).tail] := by
  simp [splitChars, cutFirst_of_mem sep s h]

theorem count_of_mem (sep : Char) :
    ∀ s : List Char, sep ∈ s →
      s.count sep = ((s.dropWhile (fun c => c != sep)).tail).count sep + 1
  | [], h => by simp at h
  | c :: cs, h => by
    by_cases hc : c = sep
    · simp [hc]
    · have hcs : sep ∈ cs := by
        rcases List.mem_cons.mp h with e | m
        · exact absurd e.symm hc
        · exact m
      have ih := count_of_mem sep cs hcs
      simp [List.dropWhile_cons, hc, List.count_cons, ih]

theorem takeWhile_of_not_mem (sep : Char) :
    ∀ s : List Char, sep ∉ s → s.takeWhile (fun c => c != sep) = s
  | [], _ => rfl
  | c :: cs, h => by
    have hc : ¬ c = sep := fun e => h (by simp [e])
    have hcs : sep ∉ cs := fun m => h (List.mem_cons_of_mem _ m)
    simp [List.takeWhile_cons, hc, takeWhile_of_not_mem sep cs hcs]

/-- First piece of an unbounded split. -/
theorem splitChars_count_head (sep : Char) (s : List Char) :
    ∃ rest, splitChars sep (s.count sep + 1) s = s.takeWhile (fun c => c != sep) :: rest := by
  by_cases h : sep ∈ s
  · rw [count_of_mem sep s h]
    refine ⟨splitChars sep (((s.dropWhile (fun c => c != sep)).tail).count sep + 1)
      ((s.dropWhile (fun c => c != sep)).tail), ?_⟩
    simp [splitChars, cutFirst_of_mem sep s h]
  · have h0 : s.count sep = 0 := List.count_eq_zero.mpr h
    exact ⟨[], by simp [h0, splitChars, takeWhile_of_not_mem sep s h]⟩

theorem splitChars_count_of_not_mem (sep : Char) (s : List Char) (h : sep ∉ s) :
    splitChars sep (s.count sep + 1) s = [s] := by
  have h0 : s.count sep = 0 := List.count_eq_zero.mpr h
  simp [h0, splitChars]

theorem splitChars_count_of_mem (sep : Char) (s : List Char) (h : sep ∈ s) :
    ∃ rest, splitChars sep (s.count sep + 1) s =
      s.takeWhile (fun c => c != sep)
        :: ((s.dropWhile (fun c => c != sep)).tail).takeWhile (fun c => c != sep) :: rest := by
  obtain ⟨rest, hr⟩ := splitChars_count_head sep ((s.dropWhile (fun c => c != sep)).tail)
  refine ⟨rest, ?_⟩
  rw [count_of_mem sep s h]
  simp [splitChars, cutFirst_of_mem sep s h, hr]

theorem SplitN_two_of_not_mem (s : String) (sep : Char) (h : sep ∉ s.data) :
    SplitN s sep 2 = [s] := by
  simp [SplitN, splitChars_two_of_not_mem sep s.data h]

theorem SplitN_two_of_mem (s : String) (sep : Char) (h : sep ∈ s.data) :
    SplitN s sep 2 = [beforeFirst sep s, afterFirst sep s] := by
  simp [SplitN, splitChars_two_of_mem sep s.data h, beforeFirst, afterFirst]

theorem Split_of_not_mem (s : String) (sep : Char) (h : sep ∉ s.data) :
    Split s sep = [s] := by
  simp [Split, SplitN, Count, splitChars_count_of_not_mem sep s.data h]

theorem Split_of_mem (s : String) (sep : Char) (h : sep ∈ s.data) :
    ∃ rest, Split s sep = beforeFirst sep s :: beforeFirst sep (afterFirst sep s) :: rest := by
  obtain ⟨rest, hr⟩ := splitChars_count_of_mem sep s.data h
  exact ⟨rest.map String.mk, by simp [Split, SplitN, Count, hr, beforeFirst, afterFirst]⟩

end strings

/-! ## Lemmas on the handlers and the loop body -/

theorem handleEnv_of_not_mem (state : State) (val : String) (h : '=' ∉ val.data) :
    handleEnv state val = .error (.indexOutOfRange 1 1) := by
  simp [handleEnv, strings.Split_of_not_mem val '=' h, index, bind, Except.bind]

theorem handleEnv_of_mem (state : State) (val : String) (h : '=' ∈ val.data) :
    handleEnv state val =
      .ok (state.AddEnv (beforeFirst '=' val) (beforeFirst '=' (afterFirst '=' val))) := by
  obtain ⟨rest, hr⟩ := strings.Split_of_mem val '=' h
  simp [handleEnv, hr, index, bind, Except.bind, pure, Except.pure]

theorem handleCp_of_not_mem (localSt state : State) (val : String) (h : ' ' ∉ val.data) :
    handleCp localSt state val = .error (.indexOutOfRange 1 1) := by
  simp [handleCp, strings.Split_of_not_mem val ' ' h, index, bind, Except.bind]

theorem handleCp_of_mem (localSt state : State) (val : String) (h : ' ' ∈ val.data) :
    handleCp localSt state val =
      .ok (state.FileCopy localSt (beforeFirst ' ' val) (beforeFirst ' ' (afterFirst ' ' val))) := by
  obtain ⟨rest, hr⟩ := strings.Split_of_mem val ' ' h
  simp [handleCp, hr, index, bind, Except.bind, pure, Except.pure]

theorem keywordOf_of_no_space (command : String) (h : ' ' ∉ command.data) :
    keywordOf command = command := by
  simp [keywordOf, beforeFirst, strings.takeWhile_of_not_mem ' ' command.data h]

theorem loopBody_of_space (localSt state : State) (command : String)
    (h : ' ' ∈ command.data) :
    loopBody localSt state command =
      dispatch localSt state (keywordOf command) (remainderOf command) := by
  simp only [loopBody, strings.SplitN_two_of_mem command ' ' h, index, dispatch, keywordOf,
    remainderOf, List.get?, bind, Except.bind]

theorem loopBody_of_no_space (localSt state : State) (command : String)
    (h : ' ' ∉ command.data) :
    loopBody localSt state command =
      if command = "env" ∨ command = "cp" ∨ command = "execute" then
        .error (.indexOutOfRange 1 1)
      else .error (.fatalf "%q is not a valid command" [command]) := by
  simp only [loopBody, strings.SplitN_two_of_not_mem command ' ' h, index, List.get?, bind,
    Except.bind, List.length]
  split_ifs <;> simp_all

theorem loopBody_unknown (localSt state : State) (command : String)
    (h1 : keywordOf command ≠ "env") (h2 : keywordOf command ≠ "cp")
    (h3 : keywordOf command ≠ "execute") :
    loopBody localSt state command =
      .error (.fatalf "%q is not a valid command" [keywordOf command]) := by
  by_cases h : ' ' ∈ command.data
  · rw [loopBody_of_space localSt state command h]
    simp [dispatch, h1, h2, h3]
  · rw [keywordOf_of_no_space command h] at h1 h2 h3 ⊢
    rw [loopBody_of_no_space localSt state command h]
    simp [h1, h2, h3]

theorem loopBody_of_accepts (localSt state : State) (command : String)
    (h : LoopAccepts command) :
    loopBody localSt state command = .ok (appliedStep localSt state command) := by
  obtain ⟨hs, hk⟩ := h
  rw [loopBody_of_space localSt state command hs]
  rcases hk with ⟨hk, hm⟩ | ⟨hk, hm⟩ | hk
  · simp [dispatch, appliedStep, hk, handleEnv_of_mem state _ hm]
  · simp [dispatch, appliedStep, hk, handleCp_of_mem localSt state _ hm]
  · simp [dispatch, appliedStep, hk, handleExecute]

theorem accepts_of_loopBody_ok (localSt state next : State) (command : String)
    (h : loopBody localSt state command = .ok next) : LoopAccepts command := by
  by_cases hs : ' ' ∈ command.data
  · refine ⟨hs, ?_⟩
    rw [loopBody_of_space localSt state command hs] at h
    unfold dispatch at h
    split_ifs at h with h1 h2 h3
    · left
      refine ⟨h1, ?_⟩
      by_contra hm
      rw [handleEnv_of_not_mem state _ hm] at h
      cases h
    · right; left
      refine ⟨h2, ?_⟩
      by_contra hm
      rw [handleCp_of_not_mem localSt state _ hm] at h
      cases h
    · right; right; exact h3
  · rw [loopBody_of_no_space localSt state command hs] at h
    split_ifs at h

theorem takeWhile_append_sep (sep : Char) (b : List Char) :
    ∀ a : List Char, sep ∉ a → (a ++ sep :: b).takeWhile (fun c => c != sep) = a
  | [], _ => by simp
  | c :: cs, h => by
    have hc : ¬ c = sep := fun e => h (by simp [e])
    have hcs : sep ∉ cs := fun m => h (List.mem_cons_of_mem _ m)
    simp [List.takeWhile_cons, hc, takeWhile_append_sep sep b cs hcs]

theorem dropWhile_append_sep (sep : Char) (b : List Char) :
    ∀ a : List Char, sep ∉ a → (a ++ sep :: b).dropWhile (fun c => c != sep) = sep :: b
  | [], _ => by simp
  | c :: cs, h => by
    have hc : ¬ c = sep := fun e => h (by simp [e])
    have hcs : sep ∉ cs := fun m => h (List.mem_cons_of_mem _ m)
    simp [List.dropWhile_cons, hc, dropWhile_append_sep sep b cs hcs]

theorem data_append_sep (k r : String) (sep : Char) :
    (k ++ String.singleton sep ++ r).data = k.data ++ sep :: r.data := by
  simp [String.singleton, String.data_append]

theorem beforeFirst_append (k r : String) (sep : Char) (hk : sep ∉ k.data) :
    beforeFirst sep (k ++ String.singleton sep ++ r) = k := by
  simp [beforeFirst, data_append_sep, takeWhile_append_sep sep r.data k.data hk]

theorem afterFirst_append (k r : String) (sep : Char) (hk : sep ∉ k.data) :
    afterFirst sep (k ++ String.singleton sep ++ r) = r := by
  simp [afterFirst, data_append_sep, dropWhile_append_sep sep r.data k.data hk]

theorem mem_append_sep (k r : String) (sep : Char) :
    sep ∈ (k ++ String.singleton sep ++ r).data := by
  simp [data_append_sep]

theorem loopBody_append (localSt state : State) (k r : String) (hk : ' ' ∉ k.data) :
    loopBody localSt state (k ++ " " ++ r) = dispatch localSt state k r := by
  have e : (" " : String) = String.singleton ' ' := rfl
  rw [e, loopBody_of_space _ _ _ (mem_append_sep k r ' '), keywordOf, remainderOf,
    beforeFirst_append k r ' ' hk, afterFirst_append k r ' ' hk]

theorem runLoop_cons_error (localSt state : State) (command : String) (rest : List String)
    (built : List State) (e : Abort) (h : loopBody localSt state command = .error e) :
    runLoop localSt (command :: rest) state built = ⟨built, .error e⟩ := by
  rw [runLoop, h]

theorem runLoop_cons_ok (localSt state next : State) (command : String) (rest : List String)
    (built : List State) (h : loopBody localSt state command = .ok next) :
    runLoop localSt (command :: rest) state built =
      runLoop localSt rest next (built ++ [next]) := by
  rw [runLoop, h]

theorem mainBuild_cons (img command : String) (rest : List String) (himg : img ≠ "") :
    mainBuild ⟨img, command :: rest⟩ =
      runLoop (State.Local "local-pwd") (command :: rest) (State.Image img)
        [State.Image img, State.Local "local-pwd"] := by
  simp [mainBuild, himg]

theorem depth_of_parent (s p : State) (h : s.parent = some p) : s.depth = p.depth + 1 := by
  cases s <;> simp [State.parent] at h <;> simp [State.depth, h]

theorem foldlM_cons_ok (localSt state next : State) (command : String) (rest : List String)
    (h : loopBody localSt state command = .ok next) :
    List.foldlM (loopBody localSt) state (command :: rest) =
      List.foldlM (loopBody localSt) next rest := by
  rw [List.foldlM_cons, h]
  rfl

theorem foldlM_cons_error (localSt state : State) (command : String) (rest : List String)
    (e : Abort) (h : loopBody localSt state command = .error e) :
    List.foldlM (loopBody localSt) state (command :: rest) = .error e := by
  rw [List.foldlM_cons, h]
  rfl

/-- The result of the loop is the fold of the loop body, on every input. -/
theorem runLoop_result_foldlM (localSt : State) :
    ∀ (cmds : List String) (state : State) (built : List State),
      (runLoop localSt cmds state built).result = List.foldlM (loopBody localSt) state cmds
  | [], _, _ => rfl
  | c :: cs, state, built => by
    cases hb : loopBody localSt state c with
    | error e =>
      rw [runLoop_cons_error localSt state c cs built e hb,
        foldlM_cons_error localSt state c cs e hb]
    | ok next =>
      rw [runLoop_cons_ok localSt state next c cs built hb,
        foldlM_cons_ok localSt state next c cs hb]
      exact runLoop_result_foldlM localSt cs next _

theorem appliedStep_depth (localSt state : State) (command : String) :
    (appliedStep localSt state command).depth = state.depth + 1 := by
  unfold appliedStep
  split_ifs <;> rfl

theorem foldl_appliedStep_depth (localSt : State) :
    ∀ (cmds : List String) (state : State),
      (cmds.foldl (appliedStep localSt) state).depth = state.depth + cmds.length
  | [], _ => rfl
  | c :: cs, state => by
    rw [List.foldl_cons, foldl_appliedStep_depth localSt cs, appliedStep_depth,
      List.length_cons]
    omega

/-- On accepted commands the loop runs to its end; the states it builds are,
one per command and in order, the folds of `appliedStep` over the prefixes. -/
theorem runLoop_accepts (localSt : State) :
    ∀ (cmds : List String) (state : State) (built : List State),
      (∀ c ∈ cmds, LoopAccepts c) →
      ∃ states,
        runLoop localSt cmds state built =
          ⟨built ++ states, .ok (cmds.foldl (appliedStep localSt) state)⟩ ∧
        states.length = cmds.length ∧
        ∀ i, i ≤ cmds.length →
          (state :: states)[i]? = some ((cmds.take i).foldl (appliedStep localSt) state)
  | [], state, built, _ => by
    refine ⟨[], by simp [runLoop], rfl, ?_⟩
    intro i hi
    have : i = 0 := by simpa using hi
    subst this
    rfl
  | c :: cs, state, built, hacc => by
    have hnext := loopBody_of_accepts localSt state c (hacc c (by simp))
    obtain ⟨states, hrun, hlen, hpre⟩ :=
      runLoop_accepts localSt cs (appliedStep localSt state c)
        (built ++ [appliedStep localSt state c])
        (fun x hx => hacc x (List.mem_cons_of_mem _ hx))
    refine ⟨appliedStep localSt state c :: states, ?_, by simp [hlen], ?_⟩
    · rw [runLoop_cons_ok localSt state _ c cs built hnext, hrun]
      simp
    · intro i hi
      cases i with
      | zero => rfl
      | succ j =>
        have hj := hpre j (by simpa using hi)
        rw [List.take_succ_cons, List.foldl_cons]
        simpa using hj

theorem runLoop_append_of_ok (localSt : State) (rest : List String) :
    ∀ (pre : List String) (state : State) (built built1 : List State) (reached : State),
      runLoop localSt pre state built = ⟨built1, .ok reached⟩ →
      runLoop localSt (pre ++ rest) state built = runLoop localSt rest reached built1
  | [], state, built, built1, reached, h => by
    simp only [runLoop, Outcome.mk.injEq, Except.ok.injEq] at h
    obtain ⟨h1, h2⟩ := h
    subst h1 h2
    rfl
  | c :: cs, state, built, built1, reached, h => by
    cases hb : loopBody localSt state c with
    | error e =>
      rw [runLoop_cons_error localSt state c cs built e hb] at h
      simp at h
    | ok next =>
      rw [runLoop_cons_ok localSt state next c cs built hb] at h
      rw [List.cons_append, runLoop_cons_ok localSt state next c (cs ++ rest) built hb]
      exact runLoop_append_of_ok localSt rest cs next _ built1 reached h

/-! ## The claims -/

/-- C1: a command whose keyword, its text before the first space, is none of
`env`, `cp`, `execute` stops the loop body in `log.Fatalf("%q is not a valid
command", keyword)` with exactly that keyword; no handler result exists, and the
loop returns at once with the list of built states unchanged. -/
theorem unknown_keyword_is_fatal (localSt state : State) (command : String)
    (rest : List String) (built : List State)
    (h : keywordOf command ≠ "env" ∧ keywordOf command ≠ "cp" ∧
      keywordOf command ≠ "execute") :
    loopBody localSt state command =
        .error (.fatalf "%q is not a valid command" [keywordOf command]) ∧
      runLoop localSt (command :: rest) state built =
        ⟨built, .error (.fatalf "%q is not a valid command" [keywordOf command])⟩ := by
  have hb := loopBody_unknown localSt state command h.1 h.2.1 h.2.2
  exact ⟨hb, by simp [runLoop, hb]⟩

/-- Witness of C1 at the command `frobnicate x`, followed by one more command. -/
theorem unknown_keyword_is_fatal_witness :
    (keywordOf "frobnicate x" ≠ "env" ∧ keywordOf "frobnicate x" ≠ "cp" ∧
        keywordOf "frobnicate x" ≠ "execute") ∧
      loopBody (State.Local "local-pwd") (State.Image "alpine") "frobnicate x" =
        .error (.fatalf "%q is not a valid command" ["frobnicate"]) ∧
      runLoop (State.Local "local-pwd") ("frobnicate x" :: ["env A=b"]) (State.Image "alpine")
          [State.Image "alpine", State.Local "local-pwd"] =
        ⟨[State.Image "alpine", State.Local "local-pwd"],
          .error (.fatalf "%q is not a valid command" ["frobnicate"])⟩ :=
  ⟨by decide,
    unknown_keyword_is_fatal (State.Local "local-pwd") (State.Image "alpine") "frobnicate x"
      ["env A=b"] [State.Image "alpine", State.Local "local-pwd"] (by decide)⟩

/-- C5 (as stated, refuted): with two spaces after `env` the handler argument
is ` FOO=bar`, leading space included, so the variable set is ` FOO`; with a
tab after `env` the whole line is taken as the keyword and rejected. -/
theorem whitespace_run_not_delimiter :
    strings.SplitN ("env" ++ "  " ++ "FOO=bar") ' ' 2 = ["env", " FOO=bar"] ∧
      loopBody (State.Local "local-pwd") (State.Image "alpine") ("env" ++ "  " ++ "FOO=bar") =
        .ok ((State.Image "alpine").AddEnv " FOO" "bar") ∧
      loopBody (State.Local "local-pwd") (State.Image "alpine") ("env" ++ "  " ++ "FOO=bar") ≠
        dispatch (State.Local "local-pwd") (State.Image "alpine") "env" "FOO=bar" ∧
      strings.SplitN ("env" ++ "\t" ++ "FOO=bar") ' ' 2 = ["env\tFOO=bar"] ∧
      loopBody (State.Local "local-pwd") (State.Image "alpine") ("env" ++ "\t" ++ "FOO=bar") =
        .error (.fatalf "%q is not a valid command" ["env\tFOO=bar"]) ∧
      loopBody (State.Local "local-pwd") (State.Image "alpine") ("env" ++ "\t" ++ "FOO=bar") ≠
        dispatch (State.Local "local-pwd") (State.Image "alpine") "env" "FOO=bar" := by
  decide

/-- C5 (amended): the delimiter is the first single space. For every keyword
`k` without a space and every remainder `r`, whatever `r` starts with, the line
`k ++ " " ++ r` is split into exactly `[k, r]` and dispatched on `k` with
handler argument `r`. -/
theorem single_space_dispatch (localSt state : State) (k r : String)
    (hk : ' ' ∉ k.data) :
    strings.SplitN (k ++ " " ++ r) ' ' 2 = [k, r] ∧
      loopBody localSt state (k ++ " " ++ r) = dispatch localSt state k r := by
  refine ⟨?_, loopBody_append localSt state k r hk⟩
  have e : (" " : String) = String.singleton ' ' := rfl
  rw [e, strings.SplitN_two_of_mem _ _ (mem_append_sep k r ' '),
    beforeFirst_append k r ' ' hk, afterFirst_append k r ' ' hk]

/-- Witness of C5 (amended) at keyword `env` and remainder ` FOO=bar`. -/
theorem single_space_dispatch_witness :
    ' ' ∉ ("env" : String).data ∧
      strings.SplitN ("env" ++ " " ++ " FOO=bar") ' ' 2 = ["env", " FOO=bar"] ∧
      loopBody (State.Local "local-pwd") (State.Image "alpine") ("env" ++ " " ++ " FOO=bar") =
        dispatch (State.Local "local-pwd") (State.Image "alpine") "env" " FOO=bar" :=
  ⟨by decide,
    single_space_dispatch (State.Local "local-pwd") (State.Image "alpine") "env" " FOO=bar"
      (by decide)⟩

/-- C2 (as stated, refuted): on `alpine` with the single command `env FOOBAR`
the run stops in the runtime abort `index out of range [1] with length 1`, which
is no `log.Fatalf` report, and the base-image state and the local-source state
have been built by then. -/
theorem env_without_equals_index_abort :
    mainBuild ⟨"alpine", ["env FOOBAR"]⟩ =
        ⟨[State.Image "alpine", State.Local "local-pwd"], .error (.indexOutOfRange 1 1)⟩ ∧
      (∀ format args,
        (mainBuild ⟨"alpine", ["env FOOBAR"]⟩).result ≠ .error (.fatalf format args)) ∧
      (mainBuild ⟨"alpine", ["env FOOBAR"]⟩).built ≠ [] := by
  have e : mainBuild ⟨"alpine", ["env FOOBAR"]⟩ =
      ⟨[State.Image "alpine", State.Local "local-pwd"], .error (.indexOutOfRange 1 1)⟩ := by
    decide
  refine ⟨e, ?_, ?_⟩
  · intro format args h
    rw [e] at h
    cases h
  · rw [e]
    simp

/-- C2 (amended): for every command `env R` whose remainder `R` holds no `=`,
the loop stops at that command without a state: `handleEnv` adds no
environment binding, the list of built states stays as it was, and no final
state is returned. In `main` the stop comes after the base-image state and the
local-source state have been built. -/
theorem env_without_equals_no_state (localSt state : State) (img R : String)
    (rest : List String) (built : List State) (himg : img ≠ "") (h : '=' ∉ R.data) :
    (∀ next, handleEnv state R ≠ .ok next) ∧
      (runLoop localSt (("env" ++ " " ++ R) :: rest) state built).built = built ∧
      (∀ final, (runLoop localSt (("env" ++ " " ++ R) :: rest) state built).result ≠ .ok final) ∧
      (mainBuild ⟨img, ("env" ++ " " ++ R) :: rest⟩).built =
        [State.Image img, State.Local "local-pwd"] ∧
      (∀ final, (mainBuild ⟨img, ("env" ++ " " ++ R) :: rest⟩).result ≠ .ok final) := by
  have hb : ∀ loc st, loopBody loc st ("env" ++ " " ++ R) = .error (.indexOutOfRange 1 1) := by
    intro loc st
    rw [loopBody_append loc st "env" R (by decide)]
    simp [dispatch, handleEnv_of_not_mem st R h]
  have hl : ∀ loc st b, runLoop loc (("env" ++ " " ++ R) :: rest) st b =
      ⟨b, .error (.indexOutOfRange 1 1)⟩ :=
    fun loc st b => runLoop_cons_error loc st _ rest b _ (hb loc st)
  have hm : mainBuild ⟨img, ("env" ++ " " ++ R) :: rest⟩ =
      ⟨[State.Image img, State.Local "local-pwd"], .error (.indexOutOfRange 1 1)⟩ := by
    rw [mainBuild_cons img _ rest himg, hl]
  refine ⟨?_, ?_, ?_, ?_, ?_⟩
  · intro next hn
    rw [handleEnv_of_not_mem state R h] at hn
    cases hn
  · rw [hl]
  · intro final hf
    rw [hl] at hf
    cases hf
  · rw [hm]
  · intro final hf
    rw [hm] at hf
    cases hf

/-- Witness of C2 (amended) at `env FOOBAR` on `alpine`, after one earlier step. -/
theorem env_without_equals_no_state_witness :
    ("alpine" : String) ≠ "" ∧ '=' ∉ ("FOOBAR" : String).data ∧
      ((∀ next, handleEnv ((State.Image "alpine").RunShlexRoot "true") "FOOBAR" ≠ .ok next) ∧
      (runLoop (State.Local "local-pwd") (("env" ++ " " ++ "FOOBAR") :: ["execute ls"])
          ((State.Image "alpine").RunShlexRoot "true") []).built = [] ∧
      (∀ final, (runLoop (State.Local "local-pwd") (("env" ++ " " ++ "FOOBAR") :: ["execute ls"])
          ((State.Image "alpine").RunShlexRoot "true") []).result ≠ .ok final) ∧
      (mainBuild ⟨"alpine", ("env" ++ " " ++ "FOOBAR") :: ["execute ls"]⟩).built =
        [State.Image "alpine", State.Local "local-pwd"] ∧
      (∀ final,
        (mainBuild ⟨"alpine", ("env" ++ " " ++ "FOOBAR") :: ["execute ls"]⟩).result ≠ .ok final)) :=
  ⟨by decide, by decide,
    env_without_equals_no_state (State.Local "local-pwd")
      ((State.Image "alpine").RunShlexRoot "true") "alpine" "FOOBAR" ["execute ls"] []
      (by decide) (by decide)⟩

/-- C3 (the code at the failing input): for the remainder `FOO=a=b` the
binding added by `handleEnv` has value `a`, not `a=b`; key, `=` and value put
together give `FOO=a`, not the remainder. -/
theorem env_value_stops_at_second_equals :
    strings.Split "FOO=a=b" '=' = ["FOO", "a", "b"] ∧
      handleEnv (State.Image "alpine") "FOO=a=b" =
        .ok ((State.Image "alpine").AddEnv "FOO" "a") ∧
      handleEnv (State.Image "alpine") "FOO=a=b" ≠
        .ok ((State.Image "alpine").AddEnv "FOO" "a=b") ∧
      ("FOO" ++ "=" ++ "a" : String) ≠ "FOO=a=b" ∧
      loopBody (State.Local "local-pwd") (State.Image "alpine") "env FOO=a=b" =
        .ok ((State.Image "alpine").AddEnv "FOO" "a") := by
  decide

/-- C4 (as stated, refuted): the remainder `a b c` has three whitespace tokens,
yet `handleCp` returns a copy of `a` to `b`. -/
theorem cp_three_tokens_copies :
    whitespaceTokens "a b c" = ["a", "b", "c"] ∧
      (whitespaceTokens "a b c").length ≠ 2 ∧
      handleCp (State.Local "local-pwd") (State.Image "alpine") "a b c" =
        .ok ((State.Image "alpine").FileCopy (State.Local "local-pwd") "a" "b") ∧
      loopBody (State.Local "local-pwd") (State.Image "alpine") "cp a b c" =
        .ok ((State.Image "alpine").FileCopy (State.Local "local-pwd") "a" "b") := by
  decide

/-- C4 (amended): `handleCp` returns a state exactly when the remainder holds
a space character, that is, when it splits at single spaces into two or more
pieces. The state is then the copy from the first piece to the second piece,
further pieces being ignored; with no space in the remainder no state is
returned. The same holds for the command `cp R` in the loop body. -/
theorem cp_copies_iff_space (localSt state : State) (R : String) :
    (handleCp localSt state R).toOption =
        (if ' ' ∈ R.data then
          some (state.FileCopy localSt (beforeFirst ' ' R) (beforeFirst ' ' (afterFirst ' ' R)))
        else none) ∧
      (loopBody localSt state ("cp" ++ " " ++ R)).toOption =
        (if ' ' ∈ R.data then
          some (state.FileCopy localSt (beforeFirst ' ' R) (beforeFirst ' ' (afterFirst ' ' R)))
        else none) ∧
      (strings.Split R ' ').head? = some (beforeFirst ' ' R) ∧
      (strings.Split R ' ').tail.head? =
        (if ' ' ∈ R.data then some (beforeFirst ' ' (afterFirst ' ' R)) else none) := by
  have hd : loopBody localSt state ("cp" ++ " " ++ R) = handleCp localSt state R := by
    rw [loopBody_append localSt state "cp" R (by decide)]
    simp [dispatch]
  rw [hd]
  by_cases h : ' ' ∈ R.data
  · obtain ⟨rest, hr⟩ := strings.Split_of_mem R ' ' h
    simp [h, handleCp_of_mem localSt state R h, Except.toOption, hr]
  · have hk := keywordOf_of_no_space R h
    unfold keywordOf at hk
    simp [h, handleCp_of_not_mem localSt state R h, Except.toOption,
      strings.Split_of_not_mem R ' ' h, hk]

/-- C6 (as stated, refuted): on `alpine` the one-command list `cp a<TAB>b`,
well-formed in the spec's wording (keyword `cp`, two whitespace tokens), ends
in the abort `index out of range [1] with length 1` with no final state; and
with an empty base-image reference a well-formed list ends in `no image
specified`, again with no final state. -/
theorem spec_wellFormed_list_without_final_state :
    (∀ c ∈ ["cp a\tb"], SpecWellFormed c) ∧
      mainBuild ⟨"alpine", ["cp a\tb"]⟩ =
        ⟨[State.Image "alpine", State.Local "local-pwd"], .error (.indexOutOfRange 1 1)⟩ ∧
      (¬ ∃ final, (mainBuild ⟨"alpine", ["cp a\tb"]⟩).result = .ok final) ∧
      (∀ c ∈ ["env FOO=bar"], SpecWellFormed c) ∧
      mainBuild ⟨"", ["env FOO=bar"]⟩ = ⟨[], .error (.fatalf "no image specified" [])⟩ ∧
      (¬ ∃ final, (mainBuild ⟨"", ["env FOO=bar"]⟩).result = .ok final) := by
  have e1 : mainBuild ⟨"alpine", ["cp a\tb"]⟩ =
      ⟨[State.Image "alpine", State.Local "local-pwd"], .error (.indexOutOfRange 1 1)⟩ := by
    decide
  have e2 : mainBuild ⟨"", ["env FOO=bar"]⟩ =
      ⟨[], .error (.fatalf "no image specified" [])⟩ := by
    decide
  refine ⟨by decide, e1, ?_, by decide, e2, ?_⟩
  · rintro ⟨final, h⟩
    rw [e1] at h
    cases h
  · rintro ⟨final, h⟩
    rw [e2] at h
    cases h

/-- C6 (amended): for a non-empty base-image reference and a non-empty command
list, the result of `main`'s loop is the left fold of the loop body (the
handler chosen by keyword) over the commands in input order, starting from
`llb.Image` and stopping at the first abort. When every command is accepted by
the loop body (a space after a keyword among `env`, `cp`, `execute`; an `=` in
the `env` remainder; a space in the `cp` remainder), the fold runs to its end:
the final state is the left fold of one step per command, the built list holds
after the two source states exactly one state per command, the one at position
`i` being the fold over the first `i` commands, and the final state lies as
many steps above the base image as there are commands. -/
theorem build_is_fold_in_order (img : String) (cmds : List String) (himg : img ≠ "")
    (hne : cmds ≠ []) :
    (mainBuild ⟨img, cmds⟩).result =
        List.foldlM (loopBody (State.Local "local-pwd")) (State.Image img) cmds ∧
      ((∀ c ∈ cmds, LoopAccepts c) →
        ∃ states,
          mainBuild ⟨img, cmds⟩ =
            ⟨State.Image img :: State.Local "local-pwd" :: states,
              .ok (cmds.foldl (appliedStep (State.Local "local-pwd")) (State.Image img))⟩ ∧
          states.length = cmds.length ∧
          (∀ i, i ≤ cmds.length →
            (State.Image img :: states)[i]? =
              some ((cmds.take i).foldl (appliedStep (State.Local "local-pwd"))
                (State.Image img))) ∧
          (cmds.foldl (appliedStep (State.Local "local-pwd")) (State.Image img)).depth =
            cmds.length) := by
  have hm : mainBuild ⟨img, cmds⟩ =
      runLoop (State.Local "local-pwd") cmds (State.Image img)
        [State.Image img, State.Local "local-pwd"] := by
    cases cmds with
    | nil => exact absurd rfl hne
    | cons c cs => exact mainBuild_cons img c cs himg
  refine ⟨?_, ?_⟩
  · rw [hm]
    exact runLoop_result_foldlM _ cmds _ _
  · intro hacc
    obtain ⟨states, hrun, hlen, hpre⟩ :=
      runLoop_accepts (State.Local "local-pwd") cmds (State.Image img)
        [State.Image img, State.Local "local-pwd"] hacc
    refine ⟨states, ?_, hlen, hpre, ?_⟩
    · rw [hm, hrun]
      rfl
    · rw [foldl_appliedStep_depth]
      simp [State.depth]

/-- Witness of C6 (amended) on `alpine` with the three commands of the scenario. -/
theorem build_is_fold_in_order_witness :
    (("alpine" : String) ≠ "" ∧
      ["env FOO=bar", "execute echo hi", "cp src.txt /dst.txt"] ≠ ([] : List String)) ∧
    (mainBuild ⟨"alpine", ["env FOO=bar", "execute echo hi", "cp src.txt /dst.txt"]⟩).result =
      List.foldlM (loopBody (State.Local "local-pwd")) (State.Image "alpine")
        ["env FOO=bar", "execute echo hi", "cp src.txt /dst.txt"] ∧
    (∀ c ∈ ["env FOO=bar", "execute echo hi", "cp src.txt /dst.txt"], LoopAccepts c) ∧
    (∃ states,
      mainBuild ⟨"alpine", ["env FOO=bar", "execute echo hi", "cp src.txt /dst.txt"]⟩ =
        ⟨State.Image "alpine" :: State.Local "local-pwd" :: states,
          .ok (["env FOO=bar", "execute echo hi", "cp src.txt /dst.txt"].foldl
            (appliedStep (State.Local "local-pwd")) (State.Image "alpine"))⟩ ∧
      states.length = ["env FOO=bar", "execute echo hi", "cp src.txt /dst.txt"].length ∧
      (∀ i, i ≤ ["env FOO=bar", "execute echo hi", "cp src.txt /dst.txt"].length →
        (State.Image "alpine" :: states)[i]? =
          some ((["env FOO=bar", "execute echo hi", "cp src.txt /dst.txt"].take i).foldl
            (appliedStep (State.Local "local-pwd")) (State.Image "alpine"))) ∧
      (["env FOO=bar", "execute echo hi", "cp src.txt /dst.txt"].foldl
        (appliedStep (State.Local "local-pwd")) (State.Image "alpine")).depth =
        ["env FOO=bar", "execute echo hi", "cp src.txt /dst.txt"].length) ∧
    mainBuild ⟨"alpine", ["env FOO=bar", "execute echo hi", "cp src.txt /dst.txt"]⟩ =
      ⟨[State.Image "alpine", State.Local "local-pwd",
          (State.Image "alpine").AddEnv "FOO" "bar",
          ((State.Image "alpine").AddEnv "FOO" "bar").RunShlexRoot "echo hi",
          (((State.Image "alpine").AddEnv "FOO" "bar").RunShlexRoot "echo hi").FileCopy
            (State.Local "local-pwd") "src.txt" "/dst.txt"],
        .ok ((((State.Image "alpine").AddEnv "FOO" "bar").RunShlexRoot "echo hi").FileCopy
            (State.Local "local-pwd") "src.txt" "/dst.txt")⟩ :=
  ⟨⟨by decide, by decide⟩,
    (build_is_fold_in_order "alpine" ["env FOO=bar", "execute echo hi", "cp src.txt /dst.txt"]
      (by decide) (by decide)).1,
    by decide,
    (build_is_fold_in_order "alpine" ["env FOO=bar", "execute echo hi", "cp src.txt /dst.txt"]
      (by decide) (by decide)).2 (by decide),
    by decide⟩

/-- C7 (as stated, refuted): with base image `alpine` and no commands the run
fails, but only after the base-image state and the local-source state have been
constructed. -/
theorem empty_commands_after_source_states :
    mainBuild ⟨"alpine", []⟩ =
        ⟨[State.Image "alpine", State.Local "local-pwd"],
          .error (.fatalf "file does not contain a list of commands" [])⟩ ∧
      (mainBuild ⟨"alpine", []⟩).built ≠ [] := by
  decide

/-- C7 (amended): when the base-image reference is empty or the command list
is empty, the run stops in `log.Fatalf`. For an empty base-image reference this
happens before any state is constructed. For a non-empty reference with an
empty command list it happens after the base-image state and the local-source
state have been constructed. In neither case is a derived state constructed. -/
theorem config_checks_abort (nf : noobfile) (h : nf.With = "" ∨ nf.Commands = []) :
    (mainBuild nf).result =
        .error (.fatalf
          (if nf.With = "" then "no image specified"
            else "file does not contain a list of commands") []) ∧
      (mainBuild nf).built =
        (if nf.With = "" then [] else [State.Image nf.With, State.Local "local-pwd"]) ∧
      ∀ s ∈ (mainBuild nf).built, s.parent = none := by
  by_cases hw : nf.With = ""
  · simp [mainBuild, hw]
  · have hc : nf.Commands = [] := h.resolve_left hw
    simp [mainBuild, hw, hc, State.parent]

/-- Witness of C7 (amended) at an empty base-image reference with one command. -/
theorem config_checks_abort_witness :
    ((⟨"", ["execute ls"]⟩ : noobfile).With = "" ∨
        (⟨"", ["execute ls"]⟩ : noobfile).Commands = []) ∧
      (mainBuild ⟨"", ["execute ls"]⟩).result = .error (.fatalf "no image specified" []) ∧
      (mainBuild ⟨"", ["execute ls"]⟩).built = [] ∧
      ∀ s ∈ (mainBuild ⟨"", ["execute ls"]⟩).built, s.parent = none :=
  ⟨by decide, config_checks_abort ⟨"", ["execute ls"]⟩ (by decide)⟩

/-- C8 (as stated, refuted): when a nil status is received first, the status
received after it, before the channel is closed, is not rendered. -/
theorem consumer_stops_at_nil :
    consume id id [none, some ⟨[⟨"x"⟩], [⟨"v"⟩]⟩] = [] ∧
      ([none, some ⟨[⟨"x"⟩], [⟨"v"⟩]⟩].filterMap id).flatMap (renderStatus id id) =
        ["Output:\nx\n", "Doing: v\n"] ∧
      consume id id [none, some ⟨[⟨"x"⟩], [⟨"v"⟩]⟩] ≠
        ([none, some ⟨[⟨"x"⟩], [⟨"v"⟩]⟩].filterMap id).flatMap (renderStatus id id) := by
  decide

/-- C8 (amended): the consumer renders the received statuses in receipt order
up to the first nil status or the closing of the channel, whichever comes
first: one `Output:` text per log chunk, then one `Doing:` text per vertex, for
each status. When no received status is nil, every received status is
rendered. -/
theorem consumer_renders_until_nil (blue green : String → String)
    (received : List (Option SolveStatus)) (statuses : List SolveStatus) :
    consume blue green received =
        ((received.takeWhile Option.isSome).filterMap id).flatMap (renderStatus blue green) ∧
      consume blue green (statuses.map some) =
        statuses.flatMap (renderStatus blue green) := by
  constructor
  · induction received with
    | nil => rfl
    | cons x xs ih =>
      cases x with
      | none => simp [consume]
      | some st => simp [consume, ih, List.takeWhile_cons]
  · induction statuses with
    | nil => rfl
    | cons x xs ih => simp [consume, ih]

/-- C9 (as stated, refuted): the command `cp a<TAB>b` has the keyword `cp` and
a remainder that splits on whitespace into exactly the two tokens `a` and `b`,
yet the loop body stops in the abort `index out of range [1] with length 1`. -/
theorem cp_tab_separated_aborts :
    keywordOf "cp a\tb" = "cp" ∧ remainderOf "cp a\tb" = "a\tb" ∧
      whitespaceTokens "a\tb" = ["a", "b"] ∧
      loopBody (State.Local "local-pwd") (State.Image "alpine") "cp a\tb" =
        .error (.indexOutOfRange 1 1) ∧
      ¬ ∃ next, loopBody (State.Local "local-pwd") (State.Image "alpine") "cp a\tb" =
        .ok next := by
  refine ⟨by decide, by decide, by decide, by decide, ?_⟩
  rintro ⟨next, h⟩
  have e : loopBody (State.Local "local-pwd") (State.Image "alpine") "cp a\tb" =
      .error (.indexOutOfRange 1 1) := by decide
  rw [e] at h
  cases h

/-- C9 (amended): for a keyword `k` and a remainder `R` with `k = env` and an
`=` in `R`, or `k = cp` and a space character in `R`, or `k = execute` and any
`R`, the command `k ++ " " ++ R` is processed without abort and gives exactly
one state, built in one step from the state before it: the binding of the text
before the first `=` for `env`, the copy from the first to the second
space-separated piece for `cp`, the run of `R` for `execute`. Every result of
processing the same command is that same state. -/
theorem wellFormed_command_one_state (localSt state : State) (k R : String)
    (h : (k = "env" ∧ '=' ∈ R.data) ∨ (k = "cp" ∧ ' ' ∈ R.data) ∨ k = "execute") :
    ∃ next,
      loopBody localSt state (k ++ " " ++ R) = .ok next ∧
      (∀ other, loopBody localSt state (k ++ " " ++ R) = .ok other → other = next) ∧
      next.parent = some state ∧
      next.depth = state.depth + 1 ∧
      ((k = "env" ∧
          next = state.AddEnv (beforeFirst '=' R) (beforeFirst '=' (afterFirst '=' R))) ∨
        (k = "cp" ∧
          next = state.FileCopy localSt (beforeFirst ' ' R)
            (beforeFirst ' ' (afterFirst ' ' R))) ∨
        (k = "execute" ∧ next = state.RunShlexRoot R)) := by
  have hk : ' ' ∉ k.data := by
    rcases h with ⟨e, _⟩ | ⟨e, _⟩ | e <;> subst e <;> decide
  have hb := loopBody_append localSt state k R hk
  have key : ∀ next, loopBody localSt state (k ++ " " ++ R) = .ok next →
      next.parent = some state →
      ((k = "env" ∧
          next = state.AddEnv (beforeFirst '=' R) (beforeFirst '=' (afterFirst '=' R))) ∨
        (k = "cp" ∧
          next = state.FileCopy localSt (beforeFirst ' ' R)
            (beforeFirst ' ' (afterFirst ' ' R))) ∨
        (k = "execute" ∧ next = state.RunShlexRoot R)) →
      ∃ next,
        loopBody localSt state (k ++ " " ++ R) = .ok next ∧
        (∀ other, loopBody localSt state (k ++ " " ++ R) = .ok other → other = next) ∧
        next.parent = some state ∧
        next.depth = state.depth + 1 ∧
        ((k = "env" ∧
            next = state.AddEnv (beforeFirst '=' R) (beforeFirst '=' (afterFirst '=' R))) ∨
          (k = "cp" ∧
            next = state.FileCopy localSt (beforeFirst ' ' R)
              (beforeFirst ' ' (afterFirst ' ' R))) ∨
          (k = "execute" ∧ next = state.RunShlexRoot R)) := by
    intro next hn hp hd
    refine ⟨next, hn, ?_, hp, depth_of_parent next state hp, hd⟩
    intro other ho
    rw [hn] at ho
    cases ho
    rfl
  rcases h with ⟨e, hm⟩ | ⟨e, hm⟩ | e
  · subst e
    refine key (state.AddEnv (beforeFirst '=' R) (beforeFirst '=' (afterFirst '=' R))) ?_ rfl
      (Or.inl ⟨rfl, rfl⟩)
    rw [hb]
    simp [dispatch, handleEnv_of_mem state R hm]
  · subst e
    refine key (state.FileCopy localSt (beforeFirst ' ' R)
      (beforeFirst ' ' (afterFirst ' ' R))) ?_ rfl (Or.inr (Or.inl ⟨rfl, rfl⟩))
    rw [hb]
    simp [dispatch, handleCp_of_mem localSt state R hm]
  · subst e
    refine key (state.RunShlexRoot R) ?_ rfl (Or.inr (Or.inr ⟨rfl, rfl⟩))
    rw [hb]
    simp [dispatch, handleExecute]

/-- Witness of C9 (amended) at the command `cp src.txt /dst.txt`. -/
theorem wellFormed_command_one_state_witness :
    ((("cp" : String) = "env" ∧ '=' ∈ ("src.txt /dst.txt" : String).data) ∨
        (("cp" : String) = "cp" ∧ ' ' ∈ ("src.txt /dst.txt" : String).data) ∨
        ("cp" : String) = "execute") ∧
      ∃ next,
        loopBody (State.Local "local-pwd") (State.Image "alpine")
          ("cp" ++ " " ++ "src.txt /dst.txt") = .ok next ∧
        (∀ other, loopBody (State.Local "local-pwd") (State.Image "alpine")
          ("cp" ++ " " ++ "src.txt /dst.txt") = .ok other → other = next) ∧
        next.parent = some (State.Image "alpine") ∧
        next.depth = (State.Image "alpine").depth + 1 ∧
        ((("cp" : String) = "env" ∧
            next = (State.Image "alpine").AddEnv (beforeFirst '=' "src.txt /dst.txt")
              (beforeFirst '=' (afterFirst '=' "src.txt /dst.txt"))) ∨
          (("cp" : String) = "cp" ∧
            next = (State.Image "alpine").FileCopy (State.Local "local-pwd")
              (beforeFirst ' ' "src.txt /dst.txt")
              (beforeFirst ' ' (afterFirst ' ' "src.txt /dst.txt"))) ∨
          (("cp" : String) = "execute" ∧
            next = (State.Image "alpine").RunShlexRoot "src.txt /dst.txt")) :=
  ⟨by decide,
    wellFormed_command_one_state (State.Local "local-pwd") (State.Image "alpine") "cp"
      "src.txt /dst.txt" (by decide)⟩

/-- C10 (as stated, refuted): in `cp a<TAB>b`, `frobnicate x` the first
unknown keyword is at index 1 and the command before it is well-formed in the
spec's wording, yet on `alpine` the run stops at index 0 in the abort `index
out of range [1] with length 1`, with no operation applied and no error naming
`frobnicate`; and with an empty base-image reference the run stops in `no image
specified`. -/
theorem stop_before_unknown_keyword :
    SpecWellFormed "cp a\tb" ∧ keywordOf "cp a\tb" = "cp" ∧
      keywordOf "frobnicate x" = "frobnicate" ∧
      mainBuild ⟨"alpine", ["cp a\tb", "frobnicate x"]⟩ =
        ⟨[State.Image "alpine", State.Local "local-pwd"], .error (.indexOutOfRange 1 1)⟩ ∧
      (mainBuild ⟨"alpine", ["cp a\tb", "frobnicate x"]⟩).result ≠
        .error (.fatalf "%q is not a valid command" ["frobnicate"]) ∧
      mainBuild ⟨"", ["frobnicate x"]⟩ = ⟨[], .error (.fatalf "no image specified" [])⟩ ∧
      (mainBuild ⟨"", ["frobnicate x"]⟩).result ≠
        .error (.fatalf "%q is not a valid command" ["frobnicate"]) := by
  decide

/-- C10 (amended): for a non-empty base-image reference and a command list
`pre ++ bad :: post` in which every command of `pre` is accepted by the loop
body (a space after a keyword among `env`, `cp`, `execute`; an `=` in the `env`
remainder; a space in the `cp` remainder) and the keyword of `bad`, its text
before the first space, is none of the three, the run stops in
`log.Fatalf("%q is not a valid command", keyword of bad)`. The states built by
then are the two source states and exactly one state per command of `pre`, the
one at position `i` being the fold of one step per command over the first `i`
commands of `pre`. They and the abort are the same for every `post`, and no
final state is returned. -/
theorem abort_at_first_unknown (img bad : String) (pre : List String) (himg : img ≠ "")
    (hpre : ∀ c ∈ pre, LoopAccepts c)
    (hbad : keywordOf bad ≠ "env" ∧ keywordOf bad ≠ "cp" ∧ keywordOf bad ≠ "execute") :
    ∃ states,
      states.length = pre.length ∧
      (∀ i, i ≤ pre.length →
        (State.Image img :: states)[i]? =
          some ((pre.take i).foldl (appliedStep (State.Local "local-pwd"))
            (State.Image img))) ∧
      List.foldlM (loopBody (State.Local "local-pwd")) (State.Image img) pre =
        .ok (pre.foldl (appliedStep (State.Local "local-pwd")) (State.Image img)) ∧
      (pre.foldl (appliedStep (State.Local "local-pwd")) (State.Image img)).depth =
        pre.length ∧
      ∀ post : List String,
        mainBuild ⟨img, pre ++ bad :: post⟩ =
            ⟨State.Image img :: State.Local "local-pwd" :: states,
              .error (.fatalf "%q is not a valid command" [keywordOf bad])⟩ ∧
          ¬ ∃ final, (mainBuild ⟨img, pre ++ bad :: post⟩).result = .ok final := by
  obtain ⟨states, hrun, hlen, hpref⟩ :=
    runLoop_accepts (State.Local "local-pwd") pre (State.Image img)
      [State.Image img, State.Local "local-pwd"] hpre
  have hfold := runLoop_result_foldlM (State.Local "local-pwd") pre (State.Image img)
    [State.Image img, State.Local "local-pwd"]
  rw [hrun] at hfold
  refine ⟨states, hlen, hpref, hfold.symm, ?_, ?_⟩
  · rw [foldl_appliedStep_depth]
    simp [State.depth]
  · intro post
    have hb := loopBody_unknown (State.Local "local-pwd")
      (pre.foldl (appliedStep (State.Local "local-pwd")) (State.Image img)) bad
      hbad.1 hbad.2.1 hbad.2.2
    have hm : mainBuild ⟨img, pre ++ bad :: post⟩ =
        runLoop (State.Local "local-pwd") (pre ++ bad :: post) (State.Image img)
          [State.Image img, State.Local "local-pwd"] := by
      cases pre with
      | nil => exact mainBuild_cons img bad post himg
      | cons c cs => exact mainBuild_cons img c (cs ++ bad :: post) himg
    have hres : mainBuild ⟨img, pre ++ bad :: post⟩ =
        ⟨State.Image img :: State.Local "local-pwd" :: states,
          .error (.fatalf "%q is not a valid command" [keywordOf bad])⟩ := by
      rw [hm, runLoop_append_of_ok (State.Local "local-pwd") (bad :: post) pre
        (State.Image img) _ _ _ hrun, runLoop_cons_error _ _ bad post _ _ hb]
      rfl
    refine ⟨hres, ?_⟩
    rintro ⟨final, hf⟩
    rw [hres] at hf
    cases hf

/-- Witness of C10 (amended) on `alpine`: two accepted commands, then
`frobnicate x`. -/
theorem abort_at_first_unknown_witness :
    (("alpine" : String) ≠ "" ∧
      (∀ c ∈ ["env FOO=bar", "execute echo hi"], LoopAccepts c) ∧
      (keywordOf "frobnicate x" ≠ "env" ∧ keywordOf "frobnicate x" ≠ "cp" ∧
        keywordOf "frobnicate x" ≠ "execute")) ∧
    (∃ states,
      states.length = ["env FOO=bar", "execute echo hi"].length ∧
      (∀ i, i ≤ ["env FOO=bar", "execute echo hi"].length →
        (State.Image "alpine" :: states)[i]? =
          some ((["env FOO=bar", "execute echo hi"].take i).foldl (appliedStep (State.Local "local-pwd"))
            (State.Image "alpine"))) ∧
      List.foldlM (loopBody (State.Local "local-pwd")) (State.Image "alpine") ["env FOO=bar", "execute echo hi"] =
        .ok (["env FOO=bar", "execute echo hi"].foldl (appliedStep (State.Local "local-pwd")) (State.Image "alpine")) ∧
      (["env FOO=bar", "execute echo hi"].foldl (appliedStep (State.Local "local-pwd")) (State.Image "alpine")).depth =
        ["env FOO=bar", "execute echo hi"].length ∧
      ∀ post : List String,
        mainBuild ⟨"alpine", ["env FOO=bar", "execute echo hi"] ++ "frobnicate x" :: post⟩ =
            ⟨State.Image "alpine" :: State.Local "local-pwd" :: states,
              .error (.fatalf "%q is not a valid command" [keywordOf "frobnicate x"])⟩ ∧
          ¬ ∃ final,
            (mainBuild ⟨"alpine", ["env FOO=bar", "execute echo hi"] ++ "frobnicate x" :: post⟩).result = .ok final) ∧
    mainBuild ⟨"alpine", ["env FOO=bar", "execute echo hi", "frobnicate x", "cp a b"]⟩ =
      ⟨[State.Image "alpine", State.Local "local-pwd",
          (State.Image "alpine").AddEnv "FOO" "bar",
          ((State.Image "alpine").AddEnv "FOO" "bar").RunShlexRoot "echo hi"],
        .error (.fatalf "%q is not a valid command" ["frobnicate"])⟩ :=
  ⟨⟨by decide, by decide, by decide⟩,
    abort_at_first_unknown "alpine" "frobnicate x" ["env FOO=bar", "execute echo hi"]
      (by decide) (by decide) (by decide),
    by decide⟩

end BuildkitToy
